import Mathlib

/-!
Shallow embedding of `src/file_manager.rs` from simpledb-rs: the block-oriented
file manager (`BlockId`, `Page`, `FileManager`).

Modelling conventions:
- A byte is a `Nat` (the encoders only ever produce values below 256).
- Rust panics (out-of-bounds slice indexing, `.expect(..)` on I/O errors,
  division by zero) are modelled by `Option`: `none` is a panic/failure.
- `i32` is modelled as `Int` together with the range hypothesis
  `-2^31 ≤ v < 2^31` where it matters.
- The file system visible to `FileManager` is a map from path strings to file
  contents (`none` = the file does not exist). Each operation that mutates a
  file returns the updated map.
- Rust strings are modelled as `List Char`; `str::as_bytes` is UTF-8 encoding
  and `String::from_utf8_lossy` is a byte-level lossy UTF-8 decoder
  (invalid sequences become the replacement character U+FFFD, consuming the
  maximal valid subpart exactly as Rust's decoder does).
-/

namespace SimpleDB

/-- Rust struct `BlockId { filename, block_number }` from the source. -/
structure BlockId where
  filename : String
  block_number : Nat
deriving DecidableEq

/-- Constructor `BlockId::new`. -/
def BlockId.new (filename : String) (block_number : Nat) : BlockId :=
  ⟨filename, block_number⟩

/-- Accessor `BlockId::number`. -/
def BlockId.number (b : BlockId) : Nat := b.block_number

/-- Rust struct `Page { data: Vec<u8> }` from the source. -/
structure Page where
  data : List Nat
deriving DecidableEq

/-- Constructor `Page::new(block_size)`: a zero-filled buffer of `block_size` bytes. -/
def Page.new (block_size : Nat) : Page :=
  ⟨List.replicate block_size 0⟩

/-- Constructor `Page::from_bytes(b)`: a buffer copied from the given bytes. -/
def Page.from_bytes (b : List Nat) : Page := ⟨b⟩

/-- Encoding `i32::to_be_bytes` on the two's-complement representation of `v`:
the four big-endian bytes of `v mod 2^32`. -/
def i32ToBeBytes (v : Int) : List Nat :=
  let u := (v % 4294967296).toNat
  [u / 16777216 % 256, u / 65536 % 256, u / 256 % 256, u % 256]

/-- Decoding `i32::from_be_bytes` on a list of four bytes: recompose the unsigned
value big-endian, then reinterpret as two's-complement `i32`. -/
def i32FromBeBytes (b : List Nat) : Int :=
  let u := b.getD 0 0 * 16777216 + b.getD 1 0 * 65536 + b.getD 2 0 * 256 + b.getD 3 0
  if u < 2147483648 then (u : Int) else (u : Int) - 4294967296

/-- The effect of `self.data[offset..offset+val.len()].copy_from_slice(val)`
once the bounds check has passed. -/
def writeRange (d : List Nat) (offset : Nat) (val : List Nat) : List Nat :=
  d.take offset ++ val ++ d.drop (offset + val.length)

/-- Accessor `Page::get_int`: slicing `data[offset..offset+4]` panics (`none`) when
`offset + 4` exceeds the buffer length; otherwise decode big-endian. -/
def Page.get_int (p : Page) (offset : Nat) : Option Int :=
  if offset + 4 ≤ p.data.length then
    some (i32FromBeBytes ((p.data.drop offset).take 4))
  else none

/-- Accessor `Page::get_bytes`: copy of `data[offset..offset+length]`, panicking
(`none`) when the range exceeds the buffer. -/
def Page.get_bytes (p : Page) (offset length : Nat) : Option (List Nat) :=
  if offset + length ≤ p.data.length then
    some ((p.data.drop offset).take length)
  else none

/-- Mutator `Page::set_int`: write the four big-endian bytes of `val` at
`[offset, offset+4)`, panicking (`none`) when out of bounds. -/
def Page.set_int (p : Page) (offset : Nat) (val : Int) : Option Page :=
  if offset + 4 ≤ p.data.length then
    some ⟨writeRange p.data offset (i32ToBeBytes val)⟩
  else none

/-- Mutator `Page::set_bytes`: raw copy of `val` at `[offset, offset+val.len())`,
panicking (`none`) when out of bounds. -/
def Page.set_bytes (p : Page) (offset : Nat) (val : List Nat) : Option Page :=
  if offset + val.length ≤ p.data.length then
    some ⟨writeRange p.data offset val⟩
  else none

/-- Helper `Page::max_length`: identity in this single-byte-per-unit scheme. -/
def Page.max_length (strlen : Nat) : Nat := strlen

/-- UTF-8 encoding of one unicode scalar value (`char` in Rust). -/
def charUtf8 (c : Char) : List Nat :=
  let n := c.toNat
  if n < 128 then [n]
  else if n < 2048 then [192 + n / 64, 128 + n % 64]
  else if n < 65536 then [224 + n / 4096, 128 + n / 64 % 64, 128 + n % 64]
  else [240 + n / 262144, 128 + n / 4096 % 64, 128 + n / 64 % 64, 128 + n % 64]

/-- Encoding `str::as_bytes`: UTF-8 encoding of a string (modelled as `List Char`). -/
def utf8Encode : List Char → List Nat
  | [] => []
  | c :: cs => charUtf8 c ++ utf8Encode cs

/-- The replacement character U+FFFD used by lossy UTF-8 decoding. -/
def replChar : Char := Char.ofNat 65533

/-- Is `b` a UTF-8 continuation byte (`0x80..=0xBF`)? -/
def isCont (b : Nat) : Bool := decide (128 ≤ b ∧ b < 192)

/-- Admissible second byte of a three-byte sequence with lead byte `b`
(Rust rejects overlong encodings and surrogates here). -/
def cont3Ok (b b1 : Nat) : Bool :=
  if b = 224 then decide (160 ≤ b1 ∧ b1 < 192)
  else if b = 237 then decide (128 ≤ b1 ∧ b1 < 160)
  else isCont b1

/-- Admissible second byte of a four-byte sequence with lead byte `b`
(Rust rejects overlong encodings and values above U+10FFFF here). -/
def cont4Ok (b b1 : Nat) : Bool :=
  if b = 240 then decide (144 ≤ b1 ∧ b1 < 192)
  else if b = 244 then decide (128 ≤ b1 ∧ b1 < 144)
  else isCont b1

/-- Fuel-indexed body of Rust's lossy UTF-8 decoder. Each step consumes at
least one byte, so any fuel of at least the list's length gives the decoder's
value; the fuel only makes the recursion structural. -/
def utf8DecodeLossyAux : Nat → List Nat → List Char
  | 0, _ => []
  | _, [] => []
  | fuel + 1, b :: rest =>
    if b < 128 then Char.ofNat b :: utf8DecodeLossyAux fuel rest
    else if 194 ≤ b ∧ b ≤ 223 then
      match rest with
      | b1 :: rest1 =>
        if isCont b1 then
          Char.ofNat ((b - 192) * 64 + (b1 - 128)) :: utf8DecodeLossyAux fuel rest1
        else replChar :: utf8DecodeLossyAux fuel (b1 :: rest1)
      | [] => [replChar]
    else if 224 ≤ b ∧ b ≤ 239 then
      match rest with
      | b1 :: rest1 =>
        if cont3Ok b b1 then
          match rest1 with
          | b2 :: rest2 =>
            if isCont b2 then
              Char.ofNat ((b - 224) * 4096 + (b1 - 128) * 64 + (b2 - 128)) ::
                utf8DecodeLossyAux fuel rest2
            else replChar :: utf8DecodeLossyAux fuel (b2 :: rest2)
          | [] => [replChar]
        else replChar :: utf8DecodeLossyAux fuel (b1 :: rest1)
      | [] => [replChar]
    else if 240 ≤ b ∧ b ≤ 244 then
      match rest with
      | b1 :: rest1 =>
        if cont4Ok b b1 then
          match rest1 with
          | b2 :: rest2 =>
            if isCont b2 then
              match rest2 with
              | b3 :: rest3 =>
                if isCont b3 then
                  Char.ofNat ((b - 240) * 262144 + (b1 - 128) * 4096 +
                      (b2 - 128) * 64 + (b3 - 128)) :: utf8DecodeLossyAux fuel rest3
                else replChar :: utf8DecodeLossyAux fuel (b3 :: rest3)
              | [] => [replChar]
            else replChar :: utf8DecodeLossyAux fuel (b2 :: rest2)
          | [] => [replChar]
        else replChar :: utf8DecodeLossyAux fuel (b1 :: rest1)
      | [] => [replChar]
    else replChar :: utf8DecodeLossyAux fuel rest

/-- Decoding `String::from_utf8_lossy`: decode bytes to characters, emitting U+FFFD
for each invalid maximal subpart (Rust's replacement policy). -/
def utf8DecodeLossy (l : List Nat) : List Char :=
  utf8DecodeLossyAux l.length l

/-- Accessor `Page::get_string`: lossy UTF-8 decoding of `data[offset..offset+length]`,
panicking (`none`) only when the range exceeds the buffer. -/
def Page.get_string (p : Page) (offset length : Nat) : Option (List Char) :=
  if offset + length ≤ p.data.length then
    some (utf8DecodeLossy ((p.data.drop offset).take length))
  else none

/-- Mutator `Page::set_string`: write the UTF-8 bytes of `val` at the offset,
panicking (`none`) when they do not fit in the buffer. -/
def Page.set_string (p : Page) (offset : Nat) (val : List Char) : Option Page :=
  let bytes := utf8Encode val
  if offset + bytes.length ≤ p.data.length then
    some ⟨writeRange p.data offset bytes⟩
  else none

/-- The file system as seen by `FileManager`: path → file contents. -/
abbrev FS := String → Option (List Nat)

/-- Rust struct `FileManager { db_directory, block_size }` from the source. -/
structure FileManager where
  db_directory : String
  block_size : Nat

/-- Constructor `FileManager::new`. -/
def FileManager.new (db_directory : String) (block_size : Nat) : FileManager :=
  ⟨db_directory, block_size⟩

/-- Path computation `self.db_directory ++ "/" ++ filename` from the source. -/
def fmPath (fm : FileManager) (filename : String) : String :=
  fm.db_directory ++ "/" ++ filename

/-- Operation `FileManager::read`: open the file (fails when absent), seek to
`blk.number() * block_size`, `read_exact` into `page.data` — which fails
(`none`) when fewer than `page.data.len()` bytes are available there. -/
def FileManager.read (fm : FileManager) (fs : FS) (blk : BlockId) (page : Page) :
    Option Page :=
  match fs (fmPath fm blk.filename) with
  | none => none
  | some c =>
    let off := blk.block_number * fm.block_size
    if off + page.data.length ≤ c.length then
      some ⟨(c.drop off).take page.data.length⟩
    else none

/-- Operation `FileManager::write`: open the existing file (fails when absent), seek to
`blk.number() * block_size` and `write_all` the page's buffer; a seek past the
end zero-fills the gap. Returns the updated file system. -/
def FileManager.write (fm : FileManager) (fs : FS) (blk : BlockId) (page : Page) :
    Option FS :=
  match fs (fmPath fm blk.filename) with
  | none => none
  | some c =>
    let off := blk.block_number * fm.block_size
    let padded := c ++ List.replicate (off - c.length) 0
    some (fun p => if p = fmPath fm blk.filename
      then some (writeRange padded off page.data) else fs p)

/-- Operation `FileManager::append`: open the existing file (fails when absent), take
its byte length, compute `new_block_num = length / block_size` (division by a
zero block size panics), `set_len` to `(new_block_num + 1) * block_size`
(an extension, zero-filled), and return the new `BlockId` with the updated
file system. -/
def FileManager.append (fm : FileManager) (fs : FS) (filename : String) :
    Option (BlockId × FS) :=
  if fm.block_size = 0 then none
  else
    match fs (fmPath fm filename) with
    | none => none
    | some c =>
      let new_block_num := c.length / fm.block_size
      let newLen := (new_block_num + 1) * fm.block_size
      let c2 := c ++ List.replicate (newLen - c.length) 0
      some (⟨filename, new_block_num⟩,
        fun p => if p = fmPath fm filename then some c2 else fs p)

/-- Operation `FileManager::length`: the file's size in blocks,
`(byte_length + block_size - 1) / block_size` (division by a zero block size
panics; fails when the file is absent). -/
def FileManager.length (fm : FileManager) (fs : FS) (filename : String) :
    Option Nat :=
  if fm.block_size = 0 then none
  else
    match fs (fmPath fm filename) with
    | none => none
    | some c => some ((c.length + fm.block_size - 1) / fm.block_size)

/-- Accessor `FileManager::block_size`. -/
def FileManager.get_block_size (fm : FileManager) : Nat := fm.block_size

/-! ### Helper lemmas -/

lemma writeRange_length (d : List Nat) (off : Nat) (val : List Nat)
    (h : off + val.length ≤ d.length) :
    (writeRange d off val).length = d.length := by
  simp [writeRange]
  omega

lemma writeRange_extract (d : List Nat) (off : Nat) (val : List Nat)
    (h : off + val.length ≤ d.length) :
    ((writeRange d off val).drop off).take val.length = val := by
  unfold writeRange
  rw [List.drop_append_of_le_length (by simp; omega),
    List.drop_append_of_le_length (by simp; omega), List.drop_take]
  simp [List.take_left]

lemma writeRange_getElem_outside (d : List Nat) (off : Nat) (val : List Nat)
    (h : off + val.length ≤ d.length) (i : Nat) (hi : i < off ∨ off + val.length ≤ i) :
    (writeRange d off val)[i]? = d[i]? := by
  unfold writeRange
  simp only [List.getElem?_append, List.getElem?_take, List.getElem?_drop,
    List.length_append, List.length_take, List.length_drop]
  split_ifs <;> first | rfl | omega | (congr 1; omega)

lemma be_recompose (u : Nat) (hub : u < 4294967296) :
    u / 16777216 % 256 * 16777216 + u / 65536 % 256 * 65536 +
      u / 256 % 256 * 256 + u % 256 = u := by omega

lemma i32u_facts (v : Int) :
    (((v % 4294967296).toNat : Nat) : Int) = v % 4294967296 ∧
      (v % 4294967296).toNat < 4294967296 := by
  constructor
  · exact Int.toNat_of_nonneg (by omega)
  · omega

lemma i32ToBeBytes_spec (v : Int) :
    ∃ b0 b1 b2 b3 : Nat, i32ToBeBytes v = [b0, b1, b2, b3] ∧
      b0 < 256 ∧ b1 < 256 ∧ b2 < 256 ∧ b3 < 256 ∧
      ((b0 * 16777216 + b1 * 65536 + b2 * 256 + b3 : Nat) : Int) = v % 4294967296 := by
  obtain ⟨hcast, hub⟩ := i32u_facts v
  unfold i32ToBeBytes
  refine ⟨_, _, _, _, rfl, Nat.mod_lt _ (by norm_num), Nat.mod_lt _ (by norm_num),
    Nat.mod_lt _ (by norm_num), Nat.mod_lt _ (by norm_num), ?_⟩
  rw [be_recompose _ hub, hcast]

lemma i32_roundtrip (v : Int) (h1 : -2147483648 ≤ v) (h2 : v < 2147483648) :
    i32FromBeBytes (i32ToBeBytes v) = v := by
  obtain ⟨hcast, hub⟩ := i32u_facts v
  unfold i32ToBeBytes i32FromBeBytes
  simp only [List.getD_cons_zero, List.getD_cons_succ]
  rw [be_recompose _ hub]
  generalize hgen : (v % 4294967296).toNat = u at hcast hub ⊢
  split_ifs with h <;> omega

/-! ### UTF-8 lemmas -/



lemma char_toNat_ofNat (n : Nat) (h : n.isValidChar) : (Char.ofNat n).toNat = n := by
  simp [Char.ofNat, h, Char.ofNatAux, Char.toNat, UInt32.toNat]

lemma isCont_elim (b : Nat) (h : isCont b = true) : 128 ≤ b ∧ b < 192 := by
  simpa [isCont] using h

lemma cont3Ok_elim (b b1 : Nat) (h : cont3Ok b b1 = true) :
    (b = 224 → 160 ≤ b1 ∧ b1 < 192) ∧ (b = 237 → 128 ≤ b1 ∧ b1 < 160) ∧
      (b ≠ 224 → b ≠ 237 → 128 ≤ b1 ∧ b1 < 192) := by
  unfold cont3Ok at h
  split_ifs at h with h1 h2 <;> simp [isCont] at h <;>
    exact ⟨fun hb => by omega, fun hb => by omega, fun hb hb2 => by omega⟩

lemma cont4Ok_elim (b b1 : Nat) (h : cont4Ok b b1 = true) :
    (b = 240 → 144 ≤ b1 ∧ b1 < 192) ∧ (b = 244 → 128 ≤ b1 ∧ b1 < 144) ∧
      (b ≠ 240 → b ≠ 244 → 128 ≤ b1 ∧ b1 < 192) := by
  unfold cont4Ok at h
  split_ifs at h with h1 h2 <;> simp [isCont] at h <;>
    exact ⟨fun hb => by omega, fun hb => by omega, fun hb hb2 => by omega⟩

lemma charUtf8_ascii (b : Nat) (h : b < 128) : charUtf8 (Char.ofNat b) = [b] := by
  have hv : b.isValidChar := Or.inl (by omega)
  unfold charUtf8
  rw [char_toNat_ofNat _ hv]
  rw [if_pos h]

lemma charUtf8_two (b b1 : Nat) (hb : 194 ≤ b) (hb2 : b ≤ 223)
    (hc : 128 ≤ b1) (hc2 : b1 < 192) :
    charUtf8 (Char.ofNat ((b - 192) * 64 + (b1 - 128))) = [b, b1] := by
  have hv : ((b - 192) * 64 + (b1 - 128)).isValidChar := Or.inl (by omega)
  unfold charUtf8
  rw [char_toNat_ofNat _ hv]
  rw [if_neg (by omega), if_pos (by omega)]
  simp only [List.cons.injEq, and_true]
  refine ⟨by omega, by omega⟩



lemma charUtf8_three (b b1 b2 : Nat) (hb : 224 ≤ b) (hb2 : b ≤ 239)
    (h3 : cont3Ok b b1 = true) (hc2 : 128 ≤ b2) (hc2b : b2 < 192) :
    charUtf8 (Char.ofNat ((b - 224) * 4096 + (b1 - 128) * 64 + (b2 - 128))) = [b, b1, b2] := by
  obtain ⟨f1, f2, f3⟩ := cont3Ok_elim b b1 h3
  have hb1r : 128 ≤ b1 ∧ b1 < 192 := by
    by_cases h1 : b = 224
    · have := f1 h1; omega
    · by_cases h2 : b = 237
      · have := f2 h2; omega
      · exact f3 h1 h2
  have hv : ((b - 224) * 4096 + (b1 - 128) * 64 + (b2 - 128)).isValidChar := by
    unfold Nat.isValidChar
    by_cases h1 : b = 224
    · have := f1 h1; omega
    · by_cases h2 : b = 237
      · have := f2 h2; omega
      · have := f3 h1 h2; omega
  have hlo : 2048 ≤ (b - 224) * 4096 + (b1 - 128) * 64 + (b2 - 128) := by
    by_cases h1 : b = 224
    · have := f1 h1; omega
    · omega
  unfold charUtf8
  rw [char_toNat_ofNat _ hv]
  rw [if_neg (by omega), if_neg (by omega), if_pos (by omega)]
  simp only [List.cons.injEq, and_true]
  refine ⟨by omega, by omega, by omega⟩

lemma charUtf8_four (b b1 b2 b3 : Nat) (hb : 240 ≤ b) (hb2 : b ≤ 244)
    (h4 : cont4Ok b b1 = true) (hc2 : 128 ≤ b2) (hc2b : b2 < 192)
    (hc3 : 128 ≤ b3) (hc3b : b3 < 192) :
    charUtf8 (Char.ofNat ((b - 240) * 262144 + (b1 - 128) * 4096 +
      (b2 - 128) * 64 + (b3 - 128))) = [b, b1, b2, b3] := by
  obtain ⟨f1, f2, f3⟩ := cont4Ok_elim b b1 h4
  have hb1r : 128 ≤ b1 ∧ b1 < 192 := by
    by_cases h1 : b = 240
    · have := f1 h1; omega
    · by_cases h2 : b = 244
      · have := f2 h2; omega
      · exact f3 h1 h2
  have hlo : 65536 ≤ (b - 240) * 262144 + (b1 - 128) * 4096 + (b2 - 128) * 64 + (b3 - 128) := by
    by_cases h1 : b = 240
    · have := f1 h1; omega
    · omega
  have hhi : (b - 240) * 262144 + (b1 - 128) * 4096 + (b2 - 128) * 64 + (b3 - 128) < 1114112 := by
    by_cases h2 : b = 244
    · have := f2 h2; omega
    · omega
  have hv : ((b - 240) * 262144 + (b1 - 128) * 4096 + (b2 - 128) * 64 + (b3 - 128)).isValidChar := by
    unfold Nat.isValidChar
    omega
  unfold charUtf8
  rw [char_toNat_ofNat _ hv]
  rw [if_neg (by omega), if_neg (by omega), if_neg (by omega)]
  simp only [List.cons.injEq, and_true]
  refine ⟨by omega, by omega, by omega, by omega⟩



lemma utf8Aux_encode : ∀ fuel (l : List Nat), l.length ≤ fuel →
    replChar ∉ utf8DecodeLossyAux fuel l →
    utf8Encode (utf8DecodeLossyAux fuel l) = l := by
  intro fuel
  induction fuel with
  | zero =>
    intro l hl _
    have : l = [] := by cases l <;> simp_all
    subst this
    rfl
  | succ fuel ih =>
    intro l hl hmem
    cases l with
    | nil => rfl
    | cons b rest =>
      simp only [utf8DecodeLossyAux] at hmem ⊢
      by_cases hb0 : b < 128
      · rw [if_pos hb0] at hmem ⊢
        have hmem' : replChar ∉ utf8DecodeLossyAux fuel rest := fun hx =>
          hmem (List.mem_cons_of_mem _ hx)
        simp only [utf8Encode]
        rw [charUtf8_ascii b hb0, ih rest (by simp at hl; omega) hmem']
        rfl
      · rw [if_neg hb0] at hmem ⊢
        by_cases hb2 : 194 ≤ b ∧ b ≤ 223
        · rw [if_pos hb2] at hmem ⊢
          cases rest with
          | nil => exact absurd (List.mem_singleton_self _) hmem
          | cons b1 rest1 =>
            simp only [] at hmem ⊢
            by_cases hcont : isCont b1 = true
            · rw [if_pos hcont] at hmem ⊢
              have hmem' : replChar ∉ utf8DecodeLossyAux fuel rest1 := fun hx =>
                hmem (List.mem_cons_of_mem _ hx)
              obtain ⟨hc1, hc2⟩ := isCont_elim _ hcont
              simp only [utf8Encode]
              rw [charUtf8_two b b1 hb2.1 hb2.2 hc1 hc2,
                ih rest1 (by simp at hl; omega) hmem']
              rfl
            · rw [if_neg hcont] at hmem
              exact absurd (List.mem_cons_self _ _) hmem
        · rw [if_neg hb2] at hmem ⊢
          by_cases hb3 : 224 ≤ b ∧ b ≤ 239
          · rw [if_pos hb3] at hmem ⊢
            cases rest with
            | nil => exact absurd (List.mem_singleton_self _) hmem
            | cons b1 rest1 =>
              simp only [] at hmem ⊢
              by_cases hc3 : cont3Ok b b1 = true
              · rw [if_pos hc3] at hmem ⊢
                cases rest1 with
                | nil => exact absurd (List.mem_singleton_self _) hmem
                | cons b2 rest2 =>
                  simp only [] at hmem ⊢
                  by_cases hcont2 : isCont b2 = true
                  · rw [if_pos hcont2] at hmem ⊢
                    have hmem' : replChar ∉ utf8DecodeLossyAux fuel rest2 := fun hx =>
                      hmem (List.mem_cons_of_mem _ hx)
                    obtain ⟨hd1, hd2⟩ := isCont_elim _ hcont2
                    simp only [utf8Encode]
                    rw [charUtf8_three b b1 b2 hb3.1 hb3.2 hc3 hd1 hd2,
                      ih rest2 (by simp at hl; omega) hmem']
                    rfl
                  · rw [if_neg hcont2] at hmem
                    exact absurd (List.mem_cons_self _ _) hmem
              · rw [if_neg hc3] at hmem
                exact absurd (List.mem_cons_self _ _) hmem
          · rw [if_neg hb3] at hmem ⊢
            by_cases hb4 : 240 ≤ b ∧ b ≤ 244
            · rw [if_pos hb4] at hmem ⊢
              cases rest with
              | nil => exact absurd (List.mem_singleton_self _) hmem
              | cons b1 rest1 =>
                simp only [] at hmem ⊢
                by_cases hc4 : cont4Ok b b1 = true
                · rw [if_pos hc4] at hmem ⊢
                  cases rest1 with
                  | nil => exact absurd (List.mem_singleton_self _) hmem
                  | cons b2 rest2 =>
                    simp only [] at hmem ⊢
                    by_cases hcont2 : isCont b2 = true
                    · rw [if_pos hcont2] at hmem ⊢
                      cases rest2 with
                      | nil => exact absurd (List.mem_singleton_self _) hmem
                      | cons b3 rest3 =>
                        simp only [] at hmem ⊢
                        by_cases hcont3 : isCont b3 = true
                        · rw [if_pos hcont3] at hmem ⊢
                          have hmem' : replChar ∉ utf8DecodeLossyAux fuel rest3 := fun hx =>
                            hmem (List.mem_cons_of_mem _ hx)
                          obtain ⟨hd1, hd2⟩ := isCont_elim _ hcont2
                          obtain ⟨he1, he2⟩ := isCont_elim _ hcont3
                          simp only [utf8Encode]
                          rw [charUtf8_four b b1 b2 b3 hb4.1 hb4.2 hc4 hd1 hd2 he1 he2,
                            ih rest3 (by simp at hl; omega) hmem']
                          rfl
                        · rw [if_neg hcont3] at hmem
                          exact absurd (List.mem_cons_self _ _) hmem
                    · rw [if_neg hcont2] at hmem
                      exact absurd (List.mem_cons_self _ _) hmem
                · rw [if_neg hc4] at hmem
                  exact absurd (List.mem_cons_self _ _) hmem
            · rw [if_neg hb4] at hmem
              exact absurd (List.mem_cons_self _ _) hmem

lemma utf8_lossy_faithful (l : List Nat) (h : replChar ∉ utf8DecodeLossy l) :
    utf8Encode (utf8DecodeLossy l) = l :=
  utf8Aux_encode l.length l le_rfl h

end SimpleDB

/-! ### Claim theorems and witnesses -/

namespace SimpleDB

/-- C1: every Page accessor fails (panics, modelled as `none`) exactly when the
requested range `[offset, offset+length)` exceeds the buffer's real length, and
never silently clamps or truncates: within bounds it returns `some`, out of
bounds it returns `none`. -/
theorem page_accessor_bounds (p : Page) (o l : Nat) (v : Int) (bs : List Nat)
    (s : List Char) :
    (p.get_int o = none ↔ p.data.length < o + 4) ∧
    (p.get_bytes o l = none ↔ p.data.length < o + l) ∧
    (p.get_string o l = none ↔ p.data.length < o + l) ∧
    (p.set_int o v = none ↔ p.data.length < o + 4) ∧
    (p.set_bytes o bs = none ↔ p.data.length < o + bs.length) ∧
    (p.set_string o s = none ↔ p.data.length < o + (utf8Encode s).length) := by
  unfold Page.get_int Page.get_bytes Page.get_string Page.set_int Page.set_bytes
    Page.set_string
  refine ⟨?_, ?_, ?_, ?_, ?_, ?_⟩ <;>
    first
      | (split_ifs <;> simp <;> omega)
      | (simp only []; split_ifs <;> simp <;> omega)

/-- C5: `set_int` stores the value as four big-endian bytes at
`[offset, offset+4)`: the most significant byte first, recomposing to
`v mod 2^32`; writing `v = 1` produces bytes `[0,0,0,1]`. -/
theorem set_int_big_endian (p : Page) (o : Nat) (v : Int)
    (h : o + 4 ≤ p.data.length) :
    ∃ q b0 b1 b2 b3, p.set_int o v = some q ∧
      (q.data.drop o).take 4 = [b0, b1, b2, b3] ∧
      b0 < 256 ∧ b1 < 256 ∧ b2 < 256 ∧ b3 < 256 ∧
      ((b0 * 16777216 + b1 * 65536 + b2 * 256 + b3 : Nat) : Int) = v % 4294967296 ∧
      (v = 1 → (q.data.drop o).take 4 = [0, 0, 0, 1]) := by
  obtain ⟨b0, b1, b2, b3, henc, hb0, hb1, hb2, hb3, hval⟩ := i32ToBeBytes_spec v
  have hlen4 : (i32ToBeBytes v).length = 4 := by rw [henc]; rfl
  have hext := writeRange_extract p.data o (i32ToBeBytes v) (by omega)
  rw [hlen4] at hext
  refine ⟨⟨writeRange p.data o (i32ToBeBytes v)⟩, b0, b1, b2, b3, ?_, ?_,
    hb0, hb1, hb2, hb3, hval, ?_⟩
  · unfold Page.set_int
    rw [if_pos h]
  · rw [hext, henc]
  · intro hv1
    subst hv1
    rw [hext]
    rfl

/-- C6: for any in-range 32-bit signed value and any in-bounds offset,
`set_int` then `get_int` returns exactly the written value. -/
theorem set_get_int_roundtrip (p : Page) (o : Nat) (v : Int)
    (h : o + 4 ≤ p.data.length) (h1 : -2147483648 ≤ v) (h2 : v < 2147483648) :
    ∃ q, p.set_int o v = some q ∧ q.get_int o = some v := by
  have hlen4 : (i32ToBeBytes v).length = 4 := by
    obtain ⟨b0, b1, b2, b3, henc, _⟩ := i32ToBeBytes_spec v
    rw [henc]; rfl
  have hwl : (writeRange p.data o (i32ToBeBytes v)).length = p.data.length :=
    writeRange_length _ _ _ (by omega)
  have hext := writeRange_extract p.data o (i32ToBeBytes v) (by omega)
  rw [hlen4] at hext
  refine ⟨⟨writeRange p.data o (i32ToBeBytes v)⟩, ?_, ?_⟩
  · unfold Page.set_int
    rw [if_pos h]
  · unfold Page.get_int
    simp only
    rw [if_pos (by rw [hwl]; omega), hext, i32_roundtrip v h1 h2]

/-- C9: each in-bounds mutation (`set_int`, `set_bytes`, `set_string`)
preserves the buffer's length and leaves every byte outside the written
range unchanged. -/
theorem set_frame_effect (p : Page) (o : Nat) (v : Int) (bs : List Nat)
    (s : List Char) :
    (o + 4 ≤ p.data.length → ∃ q, p.set_int o v = some q ∧
      q.data.length = p.data.length ∧
      ∀ i, i < o ∨ o + 4 ≤ i → q.data[i]? = p.data[i]?) ∧
    (o + bs.length ≤ p.data.length → ∃ q, p.set_bytes o bs = some q ∧
      q.data.length = p.data.length ∧
      ∀ i, i < o ∨ o + bs.length ≤ i → q.data[i]? = p.data[i]?) ∧
    (o + (utf8Encode s).length ≤ p.data.length → ∃ q, p.set_string o s = some q ∧
      q.data.length = p.data.length ∧
      ∀ i, i < o ∨ o + (utf8Encode s).length ≤ i → q.data[i]? = p.data[i]?) := by
  have hlen4 : (i32ToBeBytes v).length = 4 := by
    obtain ⟨b0, b1, b2, b3, henc, _⟩ := i32ToBeBytes_spec v
    rw [henc]; rfl
  refine ⟨fun h => ?_, fun h => ?_, fun h => ?_⟩
  · refine ⟨⟨writeRange p.data o (i32ToBeBytes v)⟩, ?_, ?_, ?_⟩
    · unfold Page.set_int
      rw [if_pos h]
    · exact writeRange_length _ _ _ (by omega)
    · intro i hi
      exact writeRange_getElem_outside _ _ _ (by omega) i (by omega)
  · refine ⟨⟨writeRange p.data o bs⟩, ?_, ?_, ?_⟩
    · unfold Page.set_bytes
      rw [if_pos h]
    · exact writeRange_length _ _ _ h
    · intro i hi
      exact writeRange_getElem_outside _ _ _ h i hi
  · refine ⟨⟨writeRange p.data o (utf8Encode s)⟩, ?_, ?_, ?_⟩
    · unfold Page.set_string
      simp only
      rw [if_pos h]
    · exact writeRange_length _ _ _ h
    · intro i hi
      exact writeRange_getElem_outside _ _ _ h i hi

/-- C7: for any in-bounds range, `get_string` always returns a string — lossy
decoding never fails on invalid UTF-8 — and whenever the returned string
contains no replacement marker, it re-encodes byte-for-byte to the raw range,
so every invalid byte range is marked by a substitution character. -/
theorem get_string_total_lossy (p : Page) (o l : Nat) (h : o + l ≤ p.data.length) :
    ∃ s, p.get_string o l = some s ∧
      (replChar ∉ s → utf8Encode s = (p.data.drop o).take l) := by
  unfold Page.get_string
  rw [if_pos h]
  exact ⟨_, rfl, fun hmem => utf8_lossy_faithful _ hmem⟩

end SimpleDB

namespace SimpleDB

/-- C2: appending to a file that currently holds exactly N blocks (byte length
N * block_size) returns a BlockId for that file with block_number = N, and the
file's block count reported by `length` afterwards is N + 1. -/
theorem append_block_count (fm : FileManager) (fs : FS) (f : String) (N : Nat)
    (c : List Nat) (hB : 0 < fm.block_size) (hfile : fs (fmPath fm f) = some c)
    (hN : c.length = N * fm.block_size) :
    ∃ blk fs2, fm.append fs f = some (blk, fs2) ∧ blk.filename = f ∧
      blk.block_number = N ∧ fm.length fs2 f = some (N + 1) := by
  unfold FileManager.append
  rw [if_neg (by omega), hfile]
  have hdiv : c.length / fm.block_size = N := by
    rw [hN]
    exact Nat.mul_div_cancel N hB
  simp only [hdiv]
  refine ⟨_, _, rfl, rfl, rfl, ?_⟩
  unfold FileManager.length
  rw [if_neg (by omega)]
  simp only [if_true]
  have e : (N + 1) * fm.block_size = N * fm.block_size + fm.block_size := by ring
  have hlen : (c ++ List.replicate ((N + 1) * fm.block_size - c.length) 0).length =
      N * fm.block_size + fm.block_size := by
    rw [List.length_append, List.length_replicate, e]
    omega
  rw [hlen]
  have e2 : N * fm.block_size + fm.block_size + fm.block_size - 1 =
      (fm.block_size - 1) + (N + 1) * fm.block_size := by
    rw [e]
    omega
  rw [e2, Nat.add_mul_div_right _ _ hB, Nat.div_eq_of_lt (by omega)]
  simp

/-- C8: for an existing file, `length` reports the number of blocks by ceiling
division: the result n is the least m with byte_length ≤ m * block_size, and a
file of block_size + 1 bytes reports exactly 2 blocks. -/
theorem length_ceiling (fm : FileManager) (fs : FS) (f : String) (c : List Nat)
    (hB : 0 < fm.block_size) (hfile : fs (fmPath fm f) = some c) :
    ∃ n, fm.length fs f = some n ∧ (∀ m, c.length ≤ m * fm.block_size ↔ n ≤ m) ∧
      (1 < fm.block_size → c.length = fm.block_size + 1 → n = 2) := by
  unfold FileManager.length
  rw [if_neg (by omega), hfile]
  refine ⟨_, rfl, ?_, ?_⟩
  · intro m
    have e : (m + 1) * fm.block_size = m * fm.block_size + fm.block_size := by ring
    constructor
    · intro hle
      have hlt : (c.length + fm.block_size - 1) / fm.block_size < m + 1 := by
        rw [Nat.div_lt_iff_lt_mul hB, e]
        omega
      omega
    · intro hle
      have hlt : (c.length + fm.block_size - 1) / fm.block_size < m + 1 := by omega
      rw [Nat.div_lt_iff_lt_mul hB, e] at hlt
      omega
  · intro hB1 hlen
    rw [hlen]
    have e : fm.block_size + 1 + fm.block_size - 1 = 2 * fm.block_size := by omega
    rw [e]
    exact Nat.mul_div_cancel 2 hB

/-- C10: a successful append on an existing file of byte length L with block
size B > 0 sets the file's length to exactly (L / B + 1) * B, strictly greater
than L (no byte is truncated: the old contents stay as a prefix), and the new
length is an exact multiple of B. -/
theorem append_extends_file (fm : FileManager) (fs : FS) (f : String)
    (c : List Nat) (hB : 0 < fm.block_size) (hfile : fs (fmPath fm f) = some c) :
    ∃ blk fs2 c2, fm.append fs f = some (blk, fs2) ∧ fs2 (fmPath fm f) = some c2 ∧
      c2.length = (c.length / fm.block_size + 1) * fm.block_size ∧
      c.length < c2.length ∧ fm.block_size ∣ c2.length ∧ c2.take c.length = c := by
  unfold FileManager.append
  rw [if_neg (by omega), hfile]
  have e : (c.length / fm.block_size + 1) * fm.block_size =
      c.length / fm.block_size * fm.block_size + fm.block_size := by ring
  have hmul := Nat.div_mul_le_self c.length fm.block_size
  have hmod := Nat.mod_lt c.length hB
  have hdm := Nat.div_add_mod c.length fm.block_size
  rw [Nat.mul_comm] at hdm
  have hlt : c.length < (c.length / fm.block_size + 1) * fm.block_size := by
    rw [e]
    omega
  have hlen : (c ++ List.replicate
      ((c.length / fm.block_size + 1) * fm.block_size - c.length) 0).length =
      (c.length / fm.block_size + 1) * fm.block_size := by
    rw [List.length_append, List.length_replicate]
    omega
  simp only []
  refine ⟨_, _,
    c ++ List.replicate ((c.length / fm.block_size + 1) * fm.block_size - c.length) 0,
    rfl, ?_, ?_, ?_, ?_, ?_⟩
  · simp only [if_true]
  · exact hlen
  · rw [hlen]
    exact hlt
  · rw [hlen]
    exact ⟨c.length / fm.block_size + 1, by ring⟩
  · exact List.take_left c _

end SimpleDB

namespace SimpleDB

/-- C3 counterexample: with block_size 4, a 2-byte file and a 2-byte page,
`read` of block 0 succeeds and returns the 2 bytes, although fewer than
block_size bytes are available at the block's offset (the claim requires the
call to fail there, and to move block_size bytes). -/
theorem read_page_length_counterexample :
    (FileManager.new "db" 4).read
        (fun p => if p = "db/f" then some [7, 8] else none)
        (BlockId.new "f" 0) (Page.from_bytes [0, 0]) =
      some (Page.from_bytes [7, 8]) ∧
    (fun p : String => if p = "db/f" then some [7, 8] else none)
        (fmPath (FileManager.new "db" 4) "f") = some [7, 8] ∧
    ([7, 8] : List Nat).length < (FileManager.new "db" 4).block_size := by
  refine ⟨rfl, rfl, by decide⟩

/-- C3 amended: `read` seeks to `blk.number() * block_size` and transfers
exactly as many bytes as the page buffer holds — which equals block_size for
a page of buffer length block_size, as quantified here. It fails when the
file is absent or fewer than block_size bytes are available at that offset,
and on success the fresh buffer mirrors the file bytes at
`[offset, offset + block_size)`. -/
theorem read_block_spec (fm : FileManager) (fs : FS) (blk : BlockId)
    (page : Page) (c : List Nat) (hpage : page.data.length = fm.block_size) :
    (fs (fmPath fm blk.filename) = none → fm.read fs blk page = none) ∧
    (fs (fmPath fm blk.filename) = some c →
      (c.length < blk.block_number * fm.block_size + fm.block_size →
        fm.read fs blk page = none) ∧
      (blk.block_number * fm.block_size + fm.block_size ≤ c.length →
        ∃ q, fm.read fs blk page = some q ∧ q.data.length = fm.block_size ∧
          ∀ i, i < fm.block_size →
            getElem? q.data i =
              getElem? c (blk.block_number * fm.block_size + i))) := by
  unfold FileManager.read
  refine ⟨fun h => ?_, fun h => ?_⟩
  · rw [h]
  rw [h]
  simp only [hpage]
  constructor
  · intro hlt
    rw [if_neg (by omega)]
  · intro hle
    rw [if_pos (by omega)]
    refine ⟨_, rfl, ?_, ?_⟩
    · simp only []
      rw [List.length_take, List.length_drop]
      omega
    · intro i hi
      simp only []
      rw [List.getElem?_take, if_pos hi, List.getElem?_drop]

/-- C4: writing a block-size payload to a block of an existing file and then
reading that block back into a fresh block-size page returns exactly the
written bytes. -/
theorem write_read_roundtrip (fm : FileManager) (fs : FS) (blk : BlockId)
    (page : Page) (c : List Nat)
    (hfile : fs (fmPath fm blk.filename) = some c)
    (hpage : page.data.length = fm.block_size)
    (hblk : (blk.block_number + 1) * fm.block_size ≤ c.length) :
    ∃ fs2, fm.write fs blk page = some fs2 ∧
      fm.read fs2 blk (Page.new fm.block_size) = some page := by
  have e : (blk.block_number + 1) * fm.block_size =
      blk.block_number * fm.block_size + fm.block_size := by ring
  rw [e] at hblk
  unfold FileManager.write
  rw [hfile]
  simp only []
  refine ⟨_, rfl, ?_⟩
  unfold FileManager.read
  simp only [if_true]
  set off := blk.block_number * fm.block_size with hoff
  set padded := c ++ List.replicate (off - c.length) 0 with hpadded
  have hplen : padded.length = c.length := by
    rw [hpadded, List.length_append, List.length_replicate]
    omega
  have hwlen : (writeRange padded off page.data).length = padded.length :=
    writeRange_length _ _ _ (by omega)
  have hext := writeRange_extract padded off page.data (by omega)
  have hnew : (Page.new fm.block_size).data.length = fm.block_size := by
    simp [Page.new]
  rw [hnew, if_pos (by omega)]
  rw [← hpage, hext]

end SimpleDB

namespace SimpleDB

/-- Witness for C5 at a concrete page, offset 1 and value 1. -/
theorem set_int_big_endian_witness :
    1 + 4 ≤ (Page.from_bytes [9, 9, 9, 9, 9, 9]).data.length ∧
    ∃ q b0 b1 b2 b3, (Page.from_bytes [9, 9, 9, 9, 9, 9]).set_int 1 1 = some q ∧
      (q.data.drop 1).take 4 = [b0, b1, b2, b3] ∧
      b0 < 256 ∧ b1 < 256 ∧ b2 < 256 ∧ b3 < 256 ∧
      ((b0 * 16777216 + b1 * 65536 + b2 * 256 + b3 : Nat) : Int) = 1 % 4294967296 ∧
      ((1 : Int) = 1 → (q.data.drop 1).take 4 = [0, 0, 0, 1]) :=
  ⟨by decide, set_int_big_endian (Page.from_bytes [9, 9, 9, 9, 9, 9]) 1 1 (by decide)⟩

/-- Witness for C6 at a concrete page, offset 0 and the negative value -2. -/
theorem set_get_int_roundtrip_witness :
    0 + 4 ≤ (Page.from_bytes [0, 0, 0, 0, 0]).data.length ∧
    ∃ q, (Page.from_bytes [0, 0, 0, 0, 0]).set_int 0 (-2) = some q ∧
      q.get_int 0 = some (-2) :=
  ⟨by decide, set_get_int_roundtrip (Page.from_bytes [0, 0, 0, 0, 0]) 0 (-2)
    (by decide) (by decide) (by decide)⟩

/-- Witness for C9: the `set_int` frame property at a concrete page. -/
theorem set_frame_effect_witness :
    1 + 4 ≤ (Page.from_bytes [1, 2, 3, 4, 5, 6]).data.length ∧
    ∃ q, (Page.from_bytes [1, 2, 3, 4, 5, 6]).set_int 1 0 = some q ∧
      q.data.length = (Page.from_bytes [1, 2, 3, 4, 5, 6]).data.length ∧
      ∀ i, i < 1 ∨ 1 + 4 ≤ i →
        q.data[i]? = (Page.from_bytes [1, 2, 3, 4, 5, 6]).data[i]? :=
  ⟨by decide,
    (set_frame_effect (Page.from_bytes [1, 2, 3, 4, 5, 6]) 1 0 [7] [Char.ofNat 65]).1
      (by decide)⟩

/-- Witness for C7 at a concrete page whose range holds invalid UTF-8. -/
theorem get_string_total_lossy_witness :
    0 + 2 ≤ (Page.from_bytes [72, 255]).data.length ∧
    ∃ s, (Page.from_bytes [72, 255]).get_string 0 2 = some s ∧
      (replChar ∉ s →
        utf8Encode s = ((Page.from_bytes [72, 255]).data.drop 0).take 2) :=
  ⟨by decide, get_string_total_lossy (Page.from_bytes [72, 255]) 0 2 (by decide)⟩

/-- Witness for C2: appending to an 8-byte (2-block) file with block size 4. -/
theorem append_block_count_witness :
    0 < (FileManager.new "db" 4).block_size ∧
    (fun p : String => if p = "db/f" then some (List.replicate 8 0) else none)
        (fmPath (FileManager.new "db" 4) "f") = some (List.replicate 8 0) ∧
    (List.replicate 8 0).length = 2 * (FileManager.new "db" 4).block_size ∧
    ∃ blk fs2, (FileManager.new "db" 4).append
        (fun p : String => if p = "db/f" then some (List.replicate 8 0) else none) "f" =
        some (blk, fs2) ∧ blk.filename = "f" ∧ blk.block_number = 2 ∧
      (FileManager.new "db" 4).length fs2 "f" = some (2 + 1) :=
  ⟨by decide, by decide, by decide,
    append_block_count (FileManager.new "db" 4)
      (fun p : String => if p = "db/f" then some (List.replicate 8 0) else none)
      "f" 2 (List.replicate 8 0) (by decide) (by decide) (by decide)⟩

/-- Witness for C8: a 5-byte file with block size 4 (one full and one partial
block) has ceiling length 2. -/
theorem length_ceiling_witness :
    0 < (FileManager.new "db" 4).block_size ∧
    (fun p : String => if p = "db/f" then some [1, 2, 3, 4, 5] else none)
        (fmPath (FileManager.new "db" 4) "f") = some [1, 2, 3, 4, 5] ∧
    ∃ n, (FileManager.new "db" 4).length
        (fun p : String => if p = "db/f" then some [1, 2, 3, 4, 5] else none) "f" =
        some n ∧
      (∀ m, ([1, 2, 3, 4, 5] : List Nat).length ≤ m * (FileManager.new "db" 4).block_size ↔
        n ≤ m) ∧
      (1 < (FileManager.new "db" 4).block_size →
        ([1, 2, 3, 4, 5] : List Nat).length = (FileManager.new "db" 4).block_size + 1 →
        n = 2) :=
  ⟨by decide, by decide,
    length_ceiling (FileManager.new "db" 4)
      (fun p : String => if p = "db/f" then some [1, 2, 3, 4, 5] else none)
      "f" [1, 2, 3, 4, 5] (by decide) (by decide)⟩

/-- Witness for C10: appending to a 5-byte file with block size 4. -/
theorem append_extends_file_witness :
    0 < (FileManager.new "db" 4).block_size ∧
    (fun p : String => if p = "db/f" then some [1, 2, 3, 4, 5] else none)
        (fmPath (FileManager.new "db" 4) "f") = some [1, 2, 3, 4, 5] ∧
    ∃ blk fs2 c2, (FileManager.new "db" 4).append
        (fun p : String => if p = "db/f" then some [1, 2, 3, 4, 5] else none) "f" =
        some (blk, fs2) ∧ fs2 (fmPath (FileManager.new "db" 4) "f") = some c2 ∧
      c2.length = (([1, 2, 3, 4, 5] : List Nat).length / (FileManager.new "db" 4).block_size + 1) *
        (FileManager.new "db" 4).block_size ∧
      ([1, 2, 3, 4, 5] : List Nat).length < c2.length ∧
      (FileManager.new "db" 4).block_size ∣ c2.length ∧
      c2.take ([1, 2, 3, 4, 5] : List Nat).length = [1, 2, 3, 4, 5] :=
  ⟨by decide, by decide,
    append_extends_file (FileManager.new "db" 4)
      (fun p : String => if p = "db/f" then some [1, 2, 3, 4, 5] else none)
      "f" [1, 2, 3, 4, 5] (by decide) (by decide)⟩

/-- Witness for the amended C3 at a block-size page and a 2-block file. -/
theorem read_block_spec_witness :
    (Page.new 4).data.length = (FileManager.new "db" 4).block_size ∧
    (((fun p : String => if p = "db/f" then some (List.replicate 8 3) else none)
        (fmPath (FileManager.new "db" 4) (BlockId.new "f" 1).filename) = none →
      (FileManager.new "db" 4).read
        (fun p : String => if p = "db/f" then some (List.replicate 8 3) else none)
        (BlockId.new "f" 1) (Page.new 4) = none) ∧
    ((fun p : String => if p = "db/f" then some (List.replicate 8 3) else none)
        (fmPath (FileManager.new "db" 4) (BlockId.new "f" 1).filename) = some (List.replicate 8 3) →
      ((List.replicate 8 3).length <
          (BlockId.new "f" 1).block_number * (FileManager.new "db" 4).block_size +
            (FileManager.new "db" 4).block_size →
        (FileManager.new "db" 4).read
          (fun p : String => if p = "db/f" then some (List.replicate 8 3) else none)
          (BlockId.new "f" 1) (Page.new 4) = none) ∧
      ((BlockId.new "f" 1).block_number * (FileManager.new "db" 4).block_size +
          (FileManager.new "db" 4).block_size ≤ (List.replicate 8 3).length →
        ∃ q, (FileManager.new "db" 4).read
            (fun p : String => if p = "db/f" then some (List.replicate 8 3) else none)
            (BlockId.new "f" 1) (Page.new 4) = some q ∧
          q.data.length = (FileManager.new "db" 4).block_size ∧
          ∀ i, i < (FileManager.new "db" 4).block_size →
            getElem? q.data i =
              getElem? (List.replicate 8 3)
                ((BlockId.new "f" 1).block_number * (FileManager.new "db" 4).block_size + i)))) :=
  ⟨by decide,
    read_block_spec (FileManager.new "db" 4)
      (fun p : String => if p = "db/f" then some (List.replicate 8 3) else none)
      (BlockId.new "f" 1) (Page.new 4) (List.replicate 8 3) (by decide)⟩

/-- Witness for C4: a write/read roundtrip on block 1 of an 8-byte file. -/
theorem write_read_roundtrip_witness :
    (fun p : String => if p = "db/f" then some (List.replicate 8 7) else none)
        (fmPath (FileManager.new "db" 4) (BlockId.new "f" 1).filename) = some (List.replicate 8 7) ∧
    (Page.from_bytes [1, 2, 3, 4]).data.length = (FileManager.new "db" 4).block_size ∧
    ((BlockId.new "f" 1).block_number + 1) * (FileManager.new "db" 4).block_size ≤
      (List.replicate 8 7).length ∧
    ∃ fs2, (FileManager.new "db" 4).write
        (fun p : String => if p = "db/f" then some (List.replicate 8 7) else none)
        (BlockId.new "f" 1) (Page.from_bytes [1, 2, 3, 4]) = some fs2 ∧
      (FileManager.new "db" 4).read fs2 (BlockId.new "f" 1)
        (Page.new (FileManager.new "db" 4).block_size) =
        some (Page.from_bytes [1, 2, 3, 4]) :=
  ⟨by decide, by decide, by decide,
    write_read_roundtrip (FileManager.new "db" 4)
      (fun p : String => if p = "db/f" then some (List.replicate 8 7) else none)
      (BlockId.new "f" 1) (Page.from_bytes [1, 2, 3, 4]) (List.replicate 8 7)
      (by decide) (by decide) (by decide)⟩

end SimpleDB
